import Mathlib

/-
Verification development for the x-tree-search argumentation/explanation
engine.  The repository ships the engine's public surface (notebooks, API
documentation, README) while the engine modules themselves
(src.explainer.adjective, src.explainer.explanation, src.explainer.framework,
src.explainer.explainer, src.explainer.explanation_tactics) are not part of
the source tree.  The definitions below therefore model the engine from the
specification and the API documentation, and are pinned to the concrete
behaviour recorded in the notebooks' stored outputs
(Notebook Examples/Explainer/minimax_definition_example.ipynb and the test
notebook): adjective evaluation, recursive explanation expansion bounded by
an explanation depth, graceful evaluation failures with causal chains, the
SkipQuantitativeExplanations tactic, the multi-framework explainer and the
free-text query front end.

Recursive functions are written with an explicit fuel argument (`gas`),
structurally decreasing, so that every definition is executable and
kernel-reducible; fuel exhaustion surfaces as an evaluation failure, and all
concrete computations in the theorems use ample fuel.
-/

namespace XTS

/-- Modelled from the spec: the comparison operators a `ComparisonAdjective`
may carry (`>`, `<`, `==`, `!=`, `>=`, `<=`). -/
inductive CompOp where
  | gt | lt | eq | ne | ge | le
deriving DecidableEq

/-- Application of a comparison operator to the two base values. -/
def CompOp.apply : CompOp → Int → Int → Bool
  | .gt, a, b => a > b
  | .lt, a, b => a < b
  | .eq, a, b => a == b
  | .ne, a, b => a != b
  | .ge, a, b => a ≥ b
  | .le, a, b => a ≤ b

/-- Display string of a comparison operator, used in the auto-generated
comparison assumption text. -/
def CompOp.str : CompOp → String
  | .gt => ">"
  | .lt => "<"
  | .eq => "=="
  | .ne => "!="
  | .ge => ">="
  | .le => "<="

/-- Modelled from the spec: the value computed by evaluating an adjective on
a node — a boolean, a scalar, a single node or an ordered group of nodes. -/
inductive Value (Node : Type) where
  | bool (b : Bool)
  | num (v : Int)
  | node (n : Node)
  | nodes (ns : List Node)

/-- One link of the causal chain of an evaluation failure: which adjective
could not be evaluated, and on which node (by its display name). -/
structure ErrEntry where
  adjName : String
  nodeName : String
deriving DecidableEq

/-- A recoverable evaluation failure is a causal chain of entries, outermost
first ("X cannot be evaluated on N because Y cannot be evaluated ..."). -/
abbrev EvalErr := List ErrEntry

/-- Modelled from the spec: the condition of a `ConditionalExplanation`
(`If(...)` in the notebooks, `PossessionCondition` in the older API docs):
an adjective to test on the subject node or on the object reached through an
optional pointer adjective. -/
structure Cond where
  pointer : Option String
  adjName : String

/-- Modelled from the spec: the explanation-template algebra.  `assumption`
is terminal text; `possession` defers to another adjective on the subject or
on a pointed-to node; `comparison` and `groupComparison` defer to a
comparison adjective against a pointed node or a pointed group;
`composite` is the conjunction of its children; `conditional` selects one of
two branches by a condition. -/
inductive Explanation where
  | assumption (text : String)
  | possession (pointer : Option String) (adjName : String)
  | comparison (compName : String) (ptrName : String)
  | groupComparison (compName : String) (groupName : String) (positiveImplication : Bool)
  | composite (subs : List Explanation)
  | conditional (cond : Cond) (ifTrue ifFalse : Explanation)

/-- The variant an adjective belongs to, recorded on every node of an
instantiated proof tree (tactics dispatch on it). -/
inductive AdjKind where
  | boolean | pointer | quantitative | group | comparison | rank
deriving DecidableEq

/-- Modelled from the spec: the closed set of adjective variants.  The
Python `definition` strings are modelled as the pair of a display string
(`defn`, shown in auto-generated definitional assumptions) and the getter
function the engine obtains by evaluating the definition on a node.
`nodesGroup` carries the `excluding` flag ("remove the subject from the
getter's result").  Comparison and rank adjectives are defined purely by the
names of the adjectives they build on, resolved in the same framework. -/
inductive Adjective (Node : Type) where
  | boolean (name defn : String) (getter : Node → Option Bool) (expl : Option Explanation)
  | pointer (name defn : String) (getter : Node → Option Node) (expl : Option Explanation)
  | quantitative (name defn : String) (getter : Node → Option Int) (expl : Option Explanation)
  | nodesGroup (name defn : String) (getter : Node → Option (List Node)) (excluding : Bool)
      (expl : Option Explanation)
  | comparison (name : String) (base : String) (op : CompOp)
  | maxRank (name : String) (comp : String) (group : String)
  | minRank (name : String) (comp : String) (group : String)

/-- The unique name of an adjective inside its framework. -/
def Adjective.name {Node : Type} : Adjective Node → String
  | .boolean n _ _ _ => n
  | .pointer n _ _ _ => n
  | .quantitative n _ _ _ => n
  | .nodesGroup n _ _ _ _ => n
  | .comparison n _ _ => n
  | .maxRank n _ _ => n
  | .minRank n _ _ => n

/-- The variant tag of an adjective. -/
def Adjective.kind {Node : Type} : Adjective Node → AdjKind
  | .boolean _ _ _ _ => .boolean
  | .pointer _ _ _ _ => .pointer
  | .quantitative _ _ _ _ => .quantitative
  | .nodesGroup _ _ _ _ _ => .group
  | .comparison _ _ _ => .comparison
  | .maxRank _ _ _ => .rank
  | .minRank _ _ _ => .rank

/-- Modelled from the spec: the post-processing tactics.  Only the tactic
exercised by the specification's concrete scenarios is given semantics
here. -/
inductive Tactic where
  | skipQuantitativeExplanations

/-- Modelled from the spec: an argumentation framework bundles the adjective
vocabulary, the framework-wide tactics and the phrase used to refer to nodes
in rendered text; the node display function models the host objects'
`__str__`. -/
structure Framework (Node : Type) where
  referToNodesAs : String
  adjectives : List (Adjective Node)
  tactics : List Tactic
  nodeStr : Node → String

/-- Name lookup in a framework's adjective registry. -/
def getAdjective {Node : Type} (fw : Framework Node) (name : String) : Option (Adjective Node) :=
  fw.adjectives.find? (fun a => a.name == name)

/-- Display string of a value (used on the right of `has ... = `). -/
def valueStr {Node : Type} (str : Node → String) : Value Node → String
  | .bool b => if b then "True" else "False"
  | .num v => toString v
  | .node n => str n
  | .nodes ns => String.intercalate ", " (ns.map str)

/-- Modelled from the spec: adjective evaluation.  `other` carries the
second node when a comparison adjective is evaluated (binary); all other
variants ignore it.  A missing getter value, an unknown name, a wrongly
typed dependency or fuel exhaustion produce an evaluation failure carrying
its causal chain; rank adjectives prepend themselves to the chain of their
failing dependency ("X cannot be evaluated on N because Y cannot be
evaluated"), require a non-empty group, and hold iff the comparison holds
against every group member (`maxRank`) or against no group member
(`minRank`). -/
def evalAdj {Node : Type} [DecidableEq Node] (fw : Framework Node) :
    Nat → String → Node → Option Node → Except EvalErr (Value Node)
  | 0, name, n, _ => .error [⟨name, fw.nodeStr n⟩]
  | gas+1, name, n, other =>
    match getAdjective fw name with
    | none => .error [⟨name, fw.nodeStr n⟩]
    | some (.boolean _ _ getter _) =>
      match getter n with
      | some b => .ok (.bool b)
      | none => .error [⟨name, fw.nodeStr n⟩]
    | some (.pointer _ _ getter _) =>
      match getter n with
      | some m => .ok (.node m)
      | none => .error [⟨name, fw.nodeStr n⟩]
    | some (.quantitative _ _ getter _) =>
      match getter n with
      | some v => .ok (.num v)
      | none => .error [⟨name, fw.nodeStr n⟩]
    | some (.nodesGroup _ _ getter excl _) =>
      match getter n with
      | some l => .ok (.nodes (if excl then l.filter (fun x => x ≠ n) else l))
      | none => .error [⟨name, fw.nodeStr n⟩]
    | some (.comparison _ base op) =>
      match other with
      | none => .error [⟨name, fw.nodeStr n⟩]
      | some b =>
        match evalAdj fw gas base n none, evalAdj fw gas base b none with
        | .ok (.num va), .ok (.num vb) => .ok (.bool (op.apply va vb))
        | .error e, _ => .error (⟨name, fw.nodeStr n⟩ :: e)
        | _, .error e => .error (⟨name, fw.nodeStr n⟩ :: e)
        | _, _ => .error [⟨name, fw.nodeStr n⟩]
    | some (.maxRank _ c g) =>
      match evalAdj fw gas g n none with
      | .error e => .error (⟨name, fw.nodeStr n⟩ :: e)
      | .ok (.nodes l) =>
        if l.isEmpty then .error [⟨name, fw.nodeStr n⟩]
        else
          match l.foldr (fun x (acc : Except EvalErr (List Bool)) =>
              match evalAdj fw gas c n (some x), acc with
              | .ok (.bool b), .ok bs => .ok (b :: bs)
              | .error e, _ => .error e
              | _, .error e => .error e
              | .ok _, .ok _ => .error ([⟨name, fw.nodeStr n⟩] : EvalErr))
              (.ok ([] : List Bool)) with
          | .error e => .error (⟨name, fw.nodeStr n⟩ :: e)
          | .ok bs => .ok (.bool (bs.all (fun b => b)))
      | .ok _ => .error [⟨name, fw.nodeStr n⟩]
    | some (.minRank _ c g) =>
      match evalAdj fw gas g n none with
      | .error e => .error (⟨name, fw.nodeStr n⟩ :: e)
      | .ok (.nodes l) =>
        if l.isEmpty then .error [⟨name, fw.nodeStr n⟩]
        else
          match l.foldr (fun x (acc : Except EvalErr (List Bool)) =>
              match evalAdj fw gas c n (some x), acc with
              | .ok (.bool b), .ok bs => .ok (b :: bs)
              | .error e, _ => .error e
              | _, .error e => .error e
              | .ok _, .ok _ => .error ([⟨name, fw.nodeStr n⟩] : EvalErr))
              (.ok ([] : List Bool)) with
          | .error e => .error (⟨name, fw.nodeStr n⟩ :: e)
          | .ok bs => .ok (.bool (bs.all (fun b => !b)))
      | .ok _ => .error [⟨name, fw.nodeStr n⟩]

/-- The collected comparison values of a node against every member of a
group (the body of the rank-adjective fold, shared with the expansion
phase): the leftmost failing member's chain wins, as in a left-to-right
walk of the group. -/
def compAll {Node : Type} [DecidableEq Node] (fw : Framework Node) (gas : Nat) (err : EvalErr)
    (c : String) (a : Node) (l : List Node) : Except EvalErr (List Bool) :=
  l.foldr (fun x (acc : Except EvalErr (List Bool)) =>
    match evalAdj fw gas c a (some x), acc with
    | .ok (.bool b), .ok bs => .ok (b :: bs)
    | .error e, _ => .error e
    | _, .error e => .error e
    | .ok _, .ok _ => .error err)
    (.ok ([] : List Bool))

/-- Conclusion text of a boolean-valued adjective (also used by rank
adjectives): `<node> is <name>` or `<node> is ¬(<name>)`. -/
def boolConclText (sn name : String) (b : Bool) : String :=
  if b then sn ++ " is " ++ name else sn ++ " is ¬(" ++ name ++ ")"

/-- Conclusion text of a value-carrying adjective: `<node> has <name> = <value>`. -/
def hasConclText (sn name v : String) : String :=
  sn ++ " has " ++ name ++ " = " ++ v

/-- Conclusion text of a comparison between two nodes, negated when the
comparison evaluated to false. -/
def compConclText (sa sb c : String) (v : Bool) : String :=
  if v then sa ++ " is " ++ c ++ " than " ++ sb
  else "¬(" ++ sa ++ " is " ++ c ++ " than " ++ sb ++ ")"

/-- Auto-generated definitional assumption of a template-less adjective. -/
def defAssumptionText (name defn : String) : String :=
  "Definition of \"" ++ name ++ "\" is " ++ defn

/-- Auto-generated definitional assumption of a rank adjective. -/
def rankAssumptionText (refer name comp group : String) (isMax : Bool) : String :=
  "By definition a " ++ refer ++ " is \"" ++ name ++ "\" if it's " ++
    (if isMax then "" else "not ") ++ "\"" ++ comp ++ "\" than all \"" ++ group ++ "\""

/-- Auto-generated definitional assumption of a comparison adjective. -/
def compAssumptionText (refer c base : String) (op : CompOp) : String :=
  "By definition, " ++ refer ++ "1 is \"" ++ c ++ "\" than " ++ refer ++ "2 if " ++
    refer ++ "1 " ++ base ++ " " ++ op.str ++ " " ++ refer ++ "2 " ++ base

/-- Rendering of the tail of a causal chain of evaluation failures. -/
def renderCauses : EvalErr → String
  | [] => ""
  | e :: rest =>
    "\nThat is because The adjective \"" ++ e.adjName ++ "\" cannot be evaluated on " ++
      e.nodeName ++ "." ++ renderCauses rest

/-- Rendering of a causal chain of evaluation failures, as printed by the
engine: the head names the node with the framework's noun, each cause
follows on its own line. -/
def renderErrChain (refer : String) : EvalErr → String
  | [] => ""
  | e :: rest =>
    "The adjective \"" ++ e.adjName ++ "\" cannot be evaluated on the " ++ refer ++ " " ++
      e.nodeName ++ "." ++ renderCauses rest

mutual
/-- An instantiated proof tree: terminal assumptions, bare conclusions
(self-evident or depth-exhausted), conclusions backed by a conjunction of
justifications, and locally recovered evaluation failures.  The adjective
variant of the concluded adjective is recorded for tactics. -/
inductive Proof where
  | assumption (text : String)
  | conclusion (kind : AdjKind) (text : String)
  | because (kind : AdjKind) (text : String) (justif : ProofList)
  | failure (chain : EvalErr)

/-- A conjunction of proof obligations (the justification of a `because`). -/
inductive ProofList where
  | nil
  | cons (head : Proof) (tail : ProofList)
end

/-- Concatenation of two justification lists. -/
def plAppend : ProofList → ProofList → ProofList
  | .nil, qs => qs
  | .cons p ps, qs => .cons p (plAppend ps qs)

/-- Conversion of an ordinary list of proofs into a justification list. -/
def plOfList : List Proof → ProofList
  | [] => .nil
  | p :: ps => .cons p (plOfList ps)

/-- Flattening of a list of justification lists into one conjunction. -/
def plJoin (ls : List ProofList) : ProofList :=
  ls.foldr plAppend .nil

/-- Number of obligations in a justification list. -/
def plLength : ProofList → Nat
  | .nil => 0
  | .cons _ ps => plLength ps + 1

/-- The justification of a proof node; leaves justify nothing. -/
def Proof.justifs : Proof → ProofList
  | .because _ _ js => js
  | _ => .nil

/-- The headline of a proof node: its conclusion or assumption text, or the
rendered failure message. -/
def Proof.headline (refer : String) : Proof → String
  | .assumption t => "(assumption) " ++ t
  | .conclusion _ t => t
  | .because _ t _ => t
  | .failure ch => renderErrChain refer ch

mutual
/-- Modelled from the spec: recursive explanation of an adjective on a node
with a depth budget `d`.  The adjective is resolved by name and evaluated;
evaluation failures are rendered as local failure leaves (never exceptions).
With an exhausted budget only the evaluated conclusion is rendered (the
notebooks' recorded depth-0 output, e.g. `child1 is ¬(worst)`); otherwise
the conclusion is backed by the instantiated template, or by the
definitional assumption when the adjective is self-evident, and rank
adjectives are backed by their rank assumption, the group possession and
one comparison against every group member.  `gas` is structural fuel,
`efuel` the fuel handed to evaluation. -/
def explainAdjOn {Node : Type} [DecidableEq Node] (fw : Framework Node) (efuel : Nat) :
    Nat → Nat → String → Node → Proof
  | 0, _, name, n => .failure [⟨name, fw.nodeStr n⟩]
  | gas+1, d, name, n =>
    match getAdjective fw name with
    | none => .failure [⟨name, fw.nodeStr n⟩]
    | some (.boolean nm defn getter tmpl) =>
      match getter n with
      | none => .failure [⟨nm, fw.nodeStr n⟩]
      | some b =>
        match d with
        | 0 => .conclusion .boolean (boolConclText (fw.nodeStr n) nm b)
        | d'+1 => .because .boolean (boolConclText (fw.nodeStr n) nm b)
            (match tmpl with
             | none => .cons (.assumption (defAssumptionText nm defn)) .nil
             | some t => expandExpl fw efuel gas d' n t)
    | some (.pointer nm defn getter tmpl) =>
      match getter n with
      | none => .failure [⟨nm, fw.nodeStr n⟩]
      | some m =>
        match d with
        | 0 => .conclusion .pointer (hasConclText (fw.nodeStr n) nm (fw.nodeStr m))
        | d'+1 => .because .pointer (hasConclText (fw.nodeStr n) nm (fw.nodeStr m))
            (match tmpl with
             | none => .cons (.assumption (defAssumptionText nm defn)) .nil
             | some t => expandExpl fw efuel gas d' n t)
    | some (.quantitative nm defn getter tmpl) =>
      match getter n with
      | none => .failure [⟨nm, fw.nodeStr n⟩]
      | some v =>
        match d with
        | 0 => .conclusion .quantitative (hasConclText (fw.nodeStr n) nm (toString v))
        | d'+1 => .because .quantitative (hasConclText (fw.nodeStr n) nm (toString v))
            (match tmpl with
             | none => .cons (.assumption (defAssumptionText nm defn)) .nil
             | some t => expandExpl fw efuel gas d' n t)
    | some (.nodesGroup nm defn getter excl tmpl) =>
      match getter n with
      | none => .failure [⟨nm, fw.nodeStr n⟩]
      | some l0 =>
        let l := if excl then l0.filter (fun x => x ≠ n) else l0
        match d with
        | 0 => .conclusion .group
            (hasConclText (fw.nodeStr n) nm (String.intercalate ", " (l.map fw.nodeStr)))
        | d'+1 => .because .group
            (hasConclText (fw.nodeStr n) nm (String.intercalate ", " (l.map fw.nodeStr)))
            (match tmpl with
             | none => .cons (.assumption (defAssumptionText nm
                 (defn ++ (if excl then " excluding " ++ fw.referToNodesAs else "")))) .nil
             | some t => expandExpl fw efuel gas d' n t)
    | some (.comparison nm _ _) => .failure [⟨nm, fw.nodeStr n⟩]
    | some (.maxRank nm c g) =>
      match evalAdj fw efuel g n none with
      | .error e => .failure (⟨nm, fw.nodeStr n⟩ :: e)
      | .ok (.nodes l) =>
        if l.isEmpty then .failure [⟨nm, fw.nodeStr n⟩]
        else
          match compAll fw efuel [⟨nm, fw.nodeStr n⟩] c n l with
          | .error e => .failure (⟨nm, fw.nodeStr n⟩ :: e)
          | .ok bs =>
            match d with
            | 0 => .conclusion .rank (boolConclText (fw.nodeStr n) nm (bs.all (fun x => x)))
            | d'+1 => .because .rank (boolConclText (fw.nodeStr n) nm (bs.all (fun x => x)))
                (.cons (.assumption (rankAssumptionText fw.referToNodesAs nm c g true))
                  (.cons (explainAdjOn fw efuel gas d' g n)
                    (plOfList (l.map (fun x => explainComparison fw efuel gas d' c n x)))))
      | .ok _ => .failure [⟨nm, fw.nodeStr n⟩]
    | some (.minRank nm c g) =>
      match evalAdj fw efuel g n none with
      | .error e => .failure (⟨nm, fw.nodeStr n⟩ :: e)
      | .ok (.nodes l) =>
        if l.isEmpty then .failure [⟨nm, fw.nodeStr n⟩]
        else
          match compAll fw efuel [⟨nm, fw.nodeStr n⟩] c n l with
          | .error e => .failure (⟨nm, fw.nodeStr n⟩ :: e)
          | .ok bs =>
            match d with
            | 0 => .conclusion .rank (boolConclText (fw.nodeStr n) nm (bs.all (fun x => !x)))
            | d'+1 => .because .rank (boolConclText (fw.nodeStr n) nm (bs.all (fun x => !x)))
                (.cons (.assumption (rankAssumptionText fw.referToNodesAs nm c g false))
                  (.cons (explainAdjOn fw efuel gas d' g n)
                    (plOfList (l.map (fun x => explainComparison fw efuel gas d' c n x)))))
      | .ok _ => .failure [⟨nm, fw.nodeStr n⟩]

/-- Modelled from the spec: instantiation of an explanation template against
a node.  Pointer hops and conditions are evaluated; their failures become
local failure leaves, leaving sibling obligations intact.  A conditional
contributes the explained condition followed by the branch selected by the
condition's value. -/
def expandExpl {Node : Type} [DecidableEq Node] (fw : Framework Node) (efuel : Nat) :
    Nat → Nat → Node → Explanation → ProofList
  | 0, _, _, _ => .nil
  | gas+1, d, n, e =>
    match e with
    | .assumption t => .cons (.assumption t) .nil
    | .possession none adjName => .cons (explainAdjOn fw efuel gas d adjName n) .nil
    | .possession (some p) adjName =>
      match evalAdj fw efuel p n none with
      | .ok (.node t) => .cons (explainAdjOn fw efuel gas d adjName t) .nil
      | .ok _ => .cons (.failure [⟨p, fw.nodeStr n⟩]) .nil
      | .error er => .cons (.failure er) .nil
    | .comparison c ptr =>
      match evalAdj fw efuel ptr n none with
      | .ok (.node t) => .cons (explainComparison fw efuel gas d c n t) .nil
      | .ok _ => .cons (.failure [⟨ptr, fw.nodeStr n⟩]) .nil
      | .error er => .cons (.failure er) .nil
    | .groupComparison c g _pos =>
      match evalAdj fw efuel g n none with
      | .ok (.nodes l) =>
        .cons (explainAdjOn fw efuel gas d g n)
          (plOfList (l.map (fun x => explainComparison fw efuel gas d c n x)))
      | .ok _ => .cons (.failure [⟨g, fw.nodeStr n⟩]) .nil
      | .error er => .cons (.failure er) .nil
    | .composite subs => plJoin (subs.map (fun s => expandExpl fw efuel gas d n s))
    | .conditional cond ifT ifF =>
      match (match cond.pointer with
             | none => (Except.ok n : Except EvalErr Node)
             | some p =>
               match evalAdj fw efuel p n none with
               | .ok (.node t) => .ok t
               | .ok _ => .error [⟨p, fw.nodeStr n⟩]
               | .error er => .error er) with
      | .error er => .cons (.failure er) .nil
      | .ok t =>
        match evalAdj fw efuel cond.adjName t none with
        | .ok (.bool b) =>
          .cons (explainAdjOn fw efuel gas d cond.adjName t)
            (if b then expandExpl fw efuel gas d n ifT else expandExpl fw efuel gas d n ifF)
        | .ok _ => .cons (.failure [⟨cond.adjName, fw.nodeStr t⟩]) .nil
        | .error er => .cons (.failure er) .nil

/-- Modelled from the spec: explanation of a comparison adjective between
two nodes (the `compare_to` entry point and the member comparisons of rank
adjectives).  The conclusion states the evaluated relation (negated when
false); with budget left it is backed by the comparison assumption and the
explanations of the base adjective on both sides. -/
def explainComparison {Node : Type} [DecidableEq Node] (fw : Framework Node) (efuel : Nat) :
    Nat → Nat → String → Node → Node → Proof
  | 0, _, c, a, _ => .failure [⟨c, fw.nodeStr a⟩]
  | gas+1, d, c, a, b =>
    match evalAdj fw efuel c a (some b) with
    | .error er => .failure er
    | .ok (.bool v) =>
      match d with
      | 0 => .conclusion .comparison (compConclText (fw.nodeStr a) (fw.nodeStr b) c v)
      | d'+1 =>
        match getAdjective fw c with
        | some (.comparison _ base op) =>
          .because .comparison (compConclText (fw.nodeStr a) (fw.nodeStr b) c v)
            (.cons (.assumption (compAssumptionText fw.referToNodesAs c base op))
              (.cons (explainAdjOn fw efuel gas d' base a)
                (.cons (explainAdjOn fw efuel gas d' base b) .nil)))
        | _ => .conclusion .comparison (compConclText (fw.nodeStr a) (fw.nodeStr b) c v)
    | .ok _ => .failure [⟨c, fw.nodeStr a⟩]
end

mutual
/-- Modelled from the spec: the `SkipQuantitativeExplanations` tactic —
every sub-proof rooted at a quantitative adjective keeps only its evaluated
conclusion, its own recursive justification is omitted; everything else is
preserved. -/
def skipQuant : Proof → Proof
  | .because .quantitative t _ => .conclusion .quantitative t
  | .because k t js => .because k t (skipQuantL js)
  | .assumption t => .assumption t
  | .conclusion k t => .conclusion k t
  | .failure ch => .failure ch

/-- The `SkipQuantitativeExplanations` tactic on a justification list. -/
def skipQuantL : ProofList → ProofList
  | .nil => .nil
  | .cons p ps => .cons (skipQuant p) (skipQuantL ps)
end

/-- Application of one post-processing tactic to an instantiated proof. -/
def applyTactic : Tactic → Proof → Proof
  | .skipQuantitativeExplanations, p => skipQuant p

/-- Application of a framework's tactics, in registration order. -/
def applyTactics (ts : List Tactic) (p : Proof) : Proof :=
  ts.foldl (fun acc t => applyTactic t acc) p

/-- Modelled from the spec: the explainer owns an ordered registry of named
frameworks. -/
structure ArgumentativeExplainer (Node : Type) where
  frameworks : List (String × Framework Node)

/-- Modelled from the spec: `add_framework` registers a framework under a
key at the end of the registry. -/
def ArgumentativeExplainer.addFramework {Node : Type} (e : ArgumentativeExplainer Node)
    (key : String) (fw : Framework Node) : ArgumentativeExplainer Node :=
  ⟨e.frameworks ++ [(key, fw)]⟩

/-- Modelled from the spec: resolution of the active framework — an explicit
`with_framework` key wins, otherwise the first-registered framework is the
default. -/
def ArgumentativeExplainer.resolveFramework {Node : Type} (e : ArgumentativeExplainer Node)
    (withFramework : Option String) : Option (Framework Node) :=
  match withFramework with
  | some k => (e.frameworks.find? (fun p => p.1 == k)).map (fun p => p.2)
  | none => e.frameworks.head?.map (fun p => p.2)

/-- Modelled from the spec: the public `explain` entry point — resolve the
active framework, build the proof (against a comparison target when
`compare_to` is given), apply the framework's tactics. -/
def ArgumentativeExplainer.explain {Node : Type} [DecidableEq Node]
    (e : ArgumentativeExplainer Node) (efuel gas d : Nat) (n : Node) (adjName : String)
    (compareTo : Option Node) (withFramework : Option String) : Option Proof :=
  (e.resolveFramework withFramework).map (fun fw =>
    applyTactics fw.tactics
      (match compareTo with
       | some b => explainComparison fw efuel gas d adjName n b
       | none => explainAdjOn fw efuel gas d adjName n))

/-- Prefix test on character lists (the string primitives themselves are
not kernel-reducible, so the matcher works on `String.toList`). -/
def isPrefixL : List Char → List Char → Bool
  | [], _ => true
  | _ :: _, [] => false
  | a :: as, b :: bs => a == b && isPrefixL as bs

/-- Suffix test on character lists. -/
def isSuffixL (pat s : List Char) : Bool :=
  isPrefixL pat.reverse s.reverse

/-- Modelled from the spec: the pattern matcher of the best-effort free-text
front end — it recognizes questions of the shape `Why is <X> <adjective>?`
whose trailing words name an adjective of the framework, and nothing else. -/
def recognizedQuery {Node : Type} (fw : Framework Node) (text : String) : Option String :=
  let cs := text.toList
  if isPrefixL "Why is ".toList cs && isSuffixL "?".toList cs then
    (fw.adjectives.find? (fun a => isSuffixL a.name.toList cs.dropLast)).map (fun a => a.name)
  else none

/-- Modelled from the spec: `query_explanation` — parse the free text
against the known phrasings; unmatched input yields no result (not an
error), matched input explains the recognized adjective. -/
def ArgumentativeExplainer.queryExplanation {Node : Type} [DecidableEq Node]
    (e : ArgumentativeExplainer Node) (efuel gas d : Nat) (n : Node) (text : String) :
    Option Proof :=
  (e.resolveFramework none).bind (fun fw =>
    (recognizedQuery fw text).map (fun a =>
      applyTactics fw.tactics (explainAdjOn fw efuel gas d a n)))

/-- The nodes of the minimax example tree of the Explainer notebook
(`minimax_definition_example.ipynb`); the third subtree's leaves reuse the
display ids `leaf21`/`leaf22`, as in the notebook. -/
inductive MMNode where
  | leaf11 | leaf12 | leaf31 | leaf32 | child1 | child2 | child3 | root
deriving DecidableEq

/-- Display id of a node (the notebook's `__str__`). -/
def MMNode.str : MMNode → String
  | .leaf11 => "leaf11"
  | .leaf12 => "leaf12"
  | .leaf31 => "leaf21"
  | .leaf32 => "leaf22"
  | .child1 => "child1"
  | .child2 => "child2"
  | .child3 => "child3"
  | .root => "root"

/-- Scores as constructed in the notebook (internal nodes inherit their
backpropagating child's score). -/
def MMNode.score : MMNode → Int
  | .leaf11 => 3
  | .leaf12 => 4
  | .leaf31 => 1
  | .leaf32 => 1
  | .child1 => 3
  | .child2 => 2
  | .child3 => 1
  | .root => 3

/-- Leaf flag: `child2` is built without children and is a leaf. -/
def MMNode.isLeaf : MMNode → Bool
  | .child1 => false
  | .child3 => false
  | .root => false
  | _ => true

/-- Turn flag after the notebook's constructor propagation: the root
maximizes, every other node of the tree ends up on the opponent's side. -/
def MMNode.maximizingPlayerTurn : MMNode → Bool
  | .root => true
  | _ => false

/-- Parent links of the example tree. -/
def MMNode.parent : MMNode → Option MMNode
  | .leaf11 => some .child1
  | .leaf12 => some .child1
  | .leaf31 => some .child3
  | .leaf32 => some .child3
  | .child1 => some .root
  | .child2 => some .root
  | .child3 => some .root
  | .root => none

/-- Child lists of the example tree. -/
def MMNode.children : MMNode → List MMNode
  | .child1 => [.leaf11, .leaf12]
  | .child3 => [.leaf31, .leaf32]
  | .root => [.child1, .child2, .child3]
  | _ => []

/-- The `score_child` pointer set by the constructor. -/
def MMNode.scoreChild : MMNode → Option MMNode
  | .child1 => some .leaf11
  | .child3 => some .leaf31
  | .root => some .child1
  | _ => none

/-- The `score` explanation template of the low-level framework. -/
def scoreExplanation : Explanation :=
  .conditional ⟨none, "leaf"⟩
    (.assumption "Leaf nodes have scores from the evaluation function")
    (.composite [.assumption "Internal nodes have scores from children",
                 .possession none "backpropagating child"])

/-- The `backpropagating child` explanation template of the low-level
framework. -/
def backpropExplanation : Explanation :=
  .conditional ⟨none, "opponent player turn"⟩
    (.composite [.assumption "We assume the opponent will do their best move.",
                 .possession (some "backpropagating child") "worst"])
    (.composite [.assumption "On our turn we take the maximum rated move.",
                 .possession (some "backpropagating child") "best"])

/-- The low-level argumentation framework of the Explainer notebook:
`leaf`, `score`, `opponent player turn`, `backpropagating child`, `better`
(strict `score >`), `siblings` (parent's children excluding the subject),
`best` (MaxRank) and `worst` (MinRank). -/
def mmFramework : Framework MMNode where
  referToNodesAs := "node"
  adjectives := [
    .boolean "leaf" "node.is_leaf" (fun n => some n.isLeaf) none,
    .quantitative "score" "node.score" (fun n => some n.score) (some scoreExplanation),
    .boolean "opponent player turn" "not node.maximizing_player_turn"
      (fun n => some (!n.maximizingPlayerTurn)) none,
    .pointer "backpropagating child" "node.score_child" (fun n => n.scoreChild)
      (some backpropExplanation),
    .comparison "better" "score" .gt,
    .nodesGroup "siblings" "node.parent.children"
      (fun n => (n.parent).map (fun p => p.children)) true none,
    .maxRank "best" "better" "siblings",
    .minRank "worst" "better" "siblings"]
  tactics := []
  nodeStr := MMNode.str

/-- The explainer holding the low-level framework. -/
def mmExplainer : ArgumentativeExplainer MMNode :=
  ⟨[("lowlevel", mmFramework)]⟩

/-- Unfolding of `compAll` (the rank-adjective comparison fold appears
inlined inside `evalAdj`; this equation lets proofs talk about it by
name). -/
theorem compAll_def {Node : Type} [DecidableEq Node] (fw : Framework Node) (gas : Nat)
    (err : EvalErr) (c : String) (a : Node) (l : List Node) :
    compAll fw gas err c a l =
      l.foldr (fun x (acc : Except EvalErr (List Bool)) =>
        match evalAdj fw gas c a (some x), acc with
        | .ok (.bool b), .ok bs => .ok (b :: bs)
        | .error e, _ => .error e
        | _, .error e => .error e
        | .ok _, .ok _ => .error err) (.ok ([] : List Bool)) := rfl

/-- When every member comparison evaluates to a boolean, the rank fold
collects exactly the list of those booleans, in group order. -/
theorem compAll_ok {Node : Type} [DecidableEq Node] (fw : Framework Node) (gas : Nat)
    (err : EvalErr) (c : String) (a : Node) (f : Node → Bool) :
    ∀ l : List Node, (∀ x ∈ l, evalAdj fw gas c a (some x) = .ok (.bool (f x))) →
      compAll fw gas err c a l = .ok (l.map f)
  | [], _ => rfl
  | x :: xs, h => by
    have hx := h x (List.mem_cons_self x xs)
    have ih := compAll_ok fw gas err c a f xs (fun y hy => h y (List.mem_cons_of_mem x hy))
    simp only [compAll, List.foldr_cons] at *
    rw [hx, ih]
    simp

/-- Length of a converted justification list. -/
theorem plLength_plOfList : ∀ xs : List Proof, plLength (plOfList xs) = xs.length
  | [] => rfl
  | _ :: xs => by simp [plOfList, plLength, plLength_plOfList xs]

/-- Associativity of justification concatenation. -/
theorem plAppend_assoc : ∀ a b c : ProofList,
    plAppend (plAppend a b) c = plAppend a (plAppend b c)
  | .nil, _, _ => rfl
  | .cons p ps, b, c => by simp [plAppend, plAppend_assoc ps b c]

/-- Flattening distributes over list concatenation: the obligations of the
first block are unaffected by the second. -/
theorem plJoin_append : ∀ xs ys : List ProofList,
    plJoin (xs ++ ys) = plAppend (plJoin xs) (plJoin ys)
  | [], _ => rfl
  | x :: xs, ys => by
    simp [plJoin, List.foldr_append] at *
    have := plJoin_append xs ys
    simp [plJoin, List.foldr_append] at this
    rw [this, ← plAppend_assoc]

/-- Concrete scenario: with the notebook tree (`leaf11` scores 3, `leaf12`
scores 4, siblings under `child1`), the comparison `better` evaluates to
false on (leaf11, leaf12), `explain(leaf11, "better", leaf12)` renders the
negated comparison backed by both scores, the sibling group of `leaf11` is
exactly `{leaf12}`, and `worst` evaluates to true on `leaf11`. -/
theorem claim3_leaf11_better_leaf12_false_and_worst :
    evalAdj mmFramework 10 "score" .leaf11 none = .ok (.num 3)
    ∧ evalAdj mmFramework 10 "score" .leaf12 none = .ok (.num 4)
    ∧ evalAdj mmFramework 10 "better" .leaf11 (some .leaf12) = .ok (.bool false)
    ∧ mmExplainer.explain 10 20 1 .leaf11 "better" (some .leaf12) none =
        some (.because .comparison "¬(leaf11 is better than leaf12)"
          (.cons (.assumption
              "By definition, node1 is \"better\" than node2 if node1 score > node2 score")
            (.cons (.conclusion .quantitative "leaf11 has score = 3")
              (.cons (.conclusion .quantitative "leaf12 has score = 4") .nil))))
    ∧ evalAdj mmFramework 10 "siblings" .leaf11 none = .ok (.nodes [.leaf12])
    ∧ evalAdj mmFramework 10 "worst" .leaf11 none = .ok (.bool true) :=
  ⟨rfl, rfl, rfl, rfl, rfl, rfl⟩

/-- Counterexample to the claim that `explanation_depth = 0` renders the
unresolved placeholder `"<node> has <adjective> = ?"`: on the notebook tree
the engine renders the evaluated conclusion `child1 is ¬(worst)` (as in the
notebook's recorded depth-0 output), which carries the evaluated value and
is not the placeholder. -/
theorem claim4_counterexample_depth0_not_placeholder :
    mmExplainer.explain 10 20 0 .child1 "worst" none none =
      some (.conclusion .rank "child1 is ¬(worst)")
    ∧ (explainAdjOn mmFramework 10 20 0 "worst" .child1).headline "node" = "child1 is ¬(worst)"
    ∧ (explainAdjOn mmFramework 10 20 0 "worst" .child1).headline "node" ≠ "child1 has worst = ?" :=
  ⟨rfl, rfl, by decide⟩

/-- Amended claim: at `explanation_depth = 0` the engine renders only the
conclusion with its evaluated value and attaches no justification at all
(the `?` placeholder appears only when a framework prints its templates
without a node). -/
theorem claim4_amended_depth0_bare_conclusion :
    (∀ (Node : Type) (inst : DecidableEq Node) (fw : Framework Node) (efuel gas : Nat)
        (name : String) (n : Node),
      (@explainAdjOn Node inst fw efuel gas 0 name n).justifs = ProofList.nil)
    ∧ mmExplainer.explain 10 20 0 .child1 "worst" none none =
        some (.conclusion .rank "child1 is ¬(worst)") := by
  refine ⟨?_, rfl⟩
  intro Node inst fw efuel gas name n
  cases gas with
  | zero => rfl
  | succ g =>
    simp only [explainAdjOn]
    repeat' split
    all_goals rfl

/-- Unrecognized free-text queries produce no explanation: when no
adjective of the default framework names a suffix of the question body,
`query_explanation` returns `None` (and, being a total function, raises
nothing). -/
theorem claim8_query_unrecognized_none {Node : Type} [DecidableEq Node]
    (e : ArgumentativeExplainer Node) (efuel gas d : Nat) (n : Node) (text : String)
    (h : ∀ a ∈ (e.resolveFramework none).elim [] (fun fw => fw.adjectives),
      isSuffixL a.name.toList text.toList.dropLast = false) :
    e.queryExplanation efuel gas d n text = none := by
  unfold ArgumentativeExplainer.queryExplanation
  cases hr : e.resolveFramework none with
  | none => rfl
  | some fw =>
    rw [hr] at h
    simp only [Option.elim] at h
    have hfind : fw.adjectives.find? (fun a => isSuffixL a.name.toList text.toList.dropLast)
        = none := by
      rw [List.find?_eq_none]
      intro a ha
      have hh := h a ha
      simp only [String.toList] at hh
      simp [hh]
    simp only [Option.some_bind, recognizedQuery]
    split
    · rw [hfind]
      rfl
    · rfl

/-- The notebook's unrecognized query on the concrete explainer. -/
theorem claim8_witness :
    mmExplainer.queryExplanation 10 20 3 .root "Why is child 1 maxoptimal?" = none :=
  claim8_query_unrecognized_none mmExplainer 10 20 3 .root "Why is child 1 maxoptimal?"
    (by decide)

/-- Registration appends: the registry of a fold of `add_framework` calls. -/
theorem addMany_frameworks {Node : Type} (acc : ArgumentativeExplainer Node) :
    ∀ rest : List (String × Framework Node),
      (rest.foldl (fun a p => a.addFramework p.1 p.2) acc).frameworks =
        acc.frameworks ++ rest
  | [] => by simp
  | p :: rest => by
    simp only [List.foldl_cons]
    rw [addMany_frameworks (acc.addFramework p.1 p.2) rest]
    simp [ArgumentativeExplainer.addFramework]

/-- The first framework registered on a fresh explainer stays the default:
after any further registrations, an `explain` call without a
`with_framework` override resolves and uses the first-registered
framework. -/
theorem claim9_first_framework_default {Node : Type} [DecidableEq Node]
    (e0 : ArgumentativeExplainer Node) (k : String) (fw : Framework Node)
    (rest : List (String × Framework Node)) (efuel gas d : Nat) (n : Node)
    (adjName : String) (compareTo : Option Node)
    (h : e0.frameworks = []) :
    (rest.foldl (fun a p => a.addFramework p.1 p.2) (e0.addFramework k fw)).resolveFramework
        none = some fw
    ∧ (rest.foldl (fun a p => a.addFramework p.1 p.2) (e0.addFramework k fw)).explain
        efuel gas d n adjName compareTo none =
      some (applyTactics fw.tactics
        (match compareTo with
         | some b => explainComparison fw efuel gas d adjName n b
         | none => explainAdjOn fw efuel gas d adjName n)) := by
  have hfw : (rest.foldl (fun a p => a.addFramework p.1 p.2)
      (e0.addFramework k fw)).frameworks = (k, fw) :: rest := by
    rw [addMany_frameworks]
    simp [ArgumentativeExplainer.addFramework, h]
  have hres : (rest.foldl (fun a p => a.addFramework p.1 p.2)
      (e0.addFramework k fw)).resolveFramework none = some fw := by
    unfold ArgumentativeExplainer.resolveFramework
    rw [hfw]
    rfl
  refine ⟨hres, ?_⟩
  unfold ArgumentativeExplainer.explain
  rw [hres]
  cases compareTo <;> rfl

/-- Instantiation of the default-framework theorem on the notebook
explainer built by registering the low-level framework first and a second
framework afterwards. -/
theorem claim9_witness :
    ((⟨[]⟩ : ArgumentativeExplainer MMNode).frameworks = [])
    ∧ ([("highlevel", mmFramework)].foldl (fun a p => a.addFramework p.1 p.2)
        ((⟨[]⟩ : ArgumentativeExplainer MMNode).addFramework "lowlevel" mmFramework)).explain
          10 20 1 .child1 "worst" none none =
      some (applyTactics mmFramework.tactics (explainAdjOn mmFramework 10 20 1 "worst" .child1)) :=
  ⟨rfl,
    (claim9_first_framework_default ⟨[]⟩ "lowlevel" mmFramework [("highlevel", mmFramework)]
      10 20 1 .child1 "worst" none rfl).2⟩



/-- When a rank adjective's group adjective cannot be evaluated on a node,
`explain` returns the rendered failure (a total function — never an
exception) whose chain extends the dependency's chain with the rank
adjective itself; the rendered message names the rank adjective and the
node and carries the dependency's causes; and expansion of a composite
treats its blocks independently, so a failing branch leaves sibling
branches' obligations unchanged. -/
theorem claim6_rank_group_failure {Node : Type} [DecidableEq Node] (fw : Framework Node)
    (efuel gas d : Nat) (name c g : String) (n : Node) (ce : EvalErr)
    (hlook : getAdjective fw name = some (.maxRank name c g))
    (hgrp : evalAdj fw efuel g n none = .error ce) :
    explainAdjOn fw efuel (gas+1) d name n = .failure (⟨name, fw.nodeStr n⟩ :: ce)
    ∧ renderErrChain fw.referToNodesAs (⟨name, fw.nodeStr n⟩ :: ce) =
        "The adjective \"" ++ name ++ "\" cannot be evaluated on the " ++ fw.referToNodesAs ++
          " " ++ fw.nodeStr n ++ "." ++ renderCauses ce
    ∧ ∀ (es1 es2 : List Explanation) (gg dd : Nat) (m : Node),
        expandExpl fw efuel (gg+1) dd m (.composite (es1 ++ es2)) =
          plAppend (expandExpl fw efuel (gg+1) dd m (.composite es1))
            (expandExpl fw efuel (gg+1) dd m (.composite es2)) := by
  refine ⟨?_, rfl, ?_⟩
  · simp only [explainAdjOn, hlook, hgrp]
  · intro es1 es2 gg dd m
    simp only [expandExpl, List.map_append, plJoin_append]

/-- The failure theorem on the notebook tree: `best` on the parentless
`root`, whose `siblings` group cannot be evaluated; the message preserves
the causal chain. -/
theorem claim6_witness :
    explainAdjOn mmFramework 10 21 3 "best" .root =
      .failure [⟨"best", "root"⟩, ⟨"siblings", "root"⟩]
    ∧ renderErrChain "node" [⟨"best", "root"⟩, ⟨"siblings", "root"⟩] =
        "The adjective \"best\" cannot be evaluated on the node root." ++
          "\nThat is because The adjective \"siblings\" cannot be evaluated on root." := by
  have h := claim6_rank_group_failure mmFramework 10 20 3 "best" "better" "siblings"
    MMNode.root [⟨"siblings", "root"⟩] rfl rfl
  exact ⟨h.1, h.2.1⟩

mutual
/-- After `SkipQuantitativeExplanations` no proof node rooted at a
quantitative adjective retains a justification. -/
def quantFree : Proof → Bool
  | .assumption _ => true
  | .conclusion _ _ => true
  | .failure _ => true
  | .because k _ js => !(k == .quantitative) && quantFreeL js

/-- `quantFree` on justification lists. -/
def quantFreeL : ProofList → Bool
  | .nil => true
  | .cons p ps => quantFree p && quantFreeL ps
end

mutual
theorem quantFree_skipQuant : ∀ p : Proof, quantFree (skipQuant p) = true
  | .assumption _ => rfl
  | .conclusion _ _ => rfl
  | .failure _ => rfl
  | .because k t js => by
    cases k <;> simp [skipQuant, quantFree, quantFreeL_skipQuantL js]

theorem quantFreeL_skipQuantL : ∀ ps : ProofList, quantFreeL (skipQuantL ps) = true
  | .nil => rfl
  | .cons p ps => by
    simp [skipQuantL, quantFreeL, quantFree_skipQuant p, quantFreeL_skipQuantL ps]
end

/-- The low-level framework with the `SkipQuantitativeExplanations` tactic
registered on it (the notebook's `add_explanation_tactic` call). -/
def mmFrameworkSkip : Framework MMNode :=
  { mmFramework with tactics := [.skipQuantitativeExplanations] }

/-- The `SkipQuantitativeExplanations` tactic removes every recursively
expanded justification under a quantitative conclusion (keeping just the
evaluated value) and touches nothing else: headlines are preserved,
non-quantitative conclusions keep their (recursively processed)
justification, assumptions survive, and on the notebook's
`better`-comparison the relational conclusion and its definitional
assumption remain while both score sub-proofs lose their justification. -/
theorem claim7_skip_quantitative :
    (∀ p : Proof, quantFree (skipQuant p) = true)
    ∧ (∀ (r : String) (p : Proof), (skipQuant p).headline r = p.headline r)
    ∧ (∀ (k : AdjKind) (t : String) (js : ProofList), k ≠ .quantitative →
        skipQuant (.because k t js) = .because k t (skipQuantL js))
    ∧ (∀ (t : String) (js : ProofList),
        skipQuant (.because .quantitative t js) = .conclusion .quantitative t)
    ∧ (∀ (a : String) (ps : ProofList),
        skipQuantL (.cons (.assumption a) ps) = .cons (.assumption a) (skipQuantL ps))
    ∧ (⟨[("lowlevel", mmFrameworkSkip)]⟩ : ArgumentativeExplainer MMNode).explain
        10 20 2 .child1 "better" (some .child2) none =
      some (.because .comparison "child1 is better than child2"
        (.cons (.assumption
            "By definition, node1 is \"better\" than node2 if node1 score > node2 score")
          (.cons (.conclusion .quantitative "child1 has score = 3")
            (.cons (.conclusion .quantitative "child2 has score = 2") .nil)))) := by
  refine ⟨quantFree_skipQuant, ?_, ?_, fun _ _ => rfl, fun _ _ => rfl, rfl⟩
  · intro r p
    cases p with
    | assumption _ => rfl
    | conclusion _ _ => rfl
    | failure _ => rfl
    | because k t js => cases k <;> rfl
  · intro k t js h
    cases k <;> simp_all [skipQuant]

/-- Instantiation of the tactic theorem's conditional part at a
non-quantitative proof node. -/
theorem claim7_witness :
    skipQuant (.because .comparison "c" (.cons (.assumption "a") .nil)) =
      .because .comparison "c" (skipQuantL (.cons (.assumption "a") .nil)) := by
  exact claim7_skip_quantitative.2.2.1 .comparison "c" (.cons (.assumption "a") .nil)
    (by decide)

/-- `all` after `map`, fused. -/
theorem all_map_eval {α : Type} (l : List α) (f : α → Bool) (p : Bool → Bool) :
    (l.map f).all p = l.all (fun x => p (f x)) := by
  induction l with
  | nil => rfl
  | cons a as ih => simp [ih]

/-- One-step rank evaluation (MaxRank): with the group and the comparison
fold given, the adjective evaluates to the conjunction of the collected
comparison values. -/
theorem evalAdj_maxRank_eq {Node : Type} [DecidableEq Node] (fw : Framework Node)
    (gas : Nat) (name c g : String) (n : Node) (l : List Node) (bs : List Bool)
    (hlook : getAdjective fw name = some (.maxRank name c g))
    (hgrp : evalAdj fw gas g n none = .ok (.nodes l))
    (hne : l.isEmpty = false)
    (hfold : compAll fw gas [⟨name, fw.nodeStr n⟩] c n l = .ok bs) :
    evalAdj fw (gas+1) name n none = .ok (.bool (bs.all (fun b => b))) := by
  simp only [evalAdj, hlook, hgrp, hne]
  rw [← compAll_def, hfold]
  simp

/-- One-step rank evaluation (MinRank): the adjective evaluates to the
conjunction of the negated collected comparison values. -/
theorem evalAdj_minRank_eq {Node : Type} [DecidableEq Node] (fw : Framework Node)
    (gas : Nat) (name c g : String) (n : Node) (l : List Node) (bs : List Bool)
    (hlook : getAdjective fw name = some (.minRank name c g))
    (hgrp : evalAdj fw gas g n none = .ok (.nodes l))
    (hne : l.isEmpty = false)
    (hfold : compAll fw gas [⟨name, fw.nodeStr n⟩] c n l = .ok bs) :
    evalAdj fw (gas+1) name n none = .ok (.bool (bs.all (fun b => !b))) := by
  simp only [evalAdj, hlook, hgrp, hne]
  rw [← compAll_def, hfold]
  simp

/-- One-step comparison evaluation under a strict-order operator with both
base values defined. -/
theorem evalAdj_comparison_eq {Node : Type} [DecidableEq Node] (fw : Framework Node)
    (gas : Nat) (cN qN : String) (op : CompOp) (a b : Node) (va vb : Int)
    (hc : getAdjective fw cN = some (.comparison cN qN op))
    (hqa : evalAdj fw gas qN a none = .ok (.num va))
    (hqb : evalAdj fw gas qN b none = .ok (.num vb)) :
    evalAdj fw (gas+1) cN a (some b) = .ok (.bool (op.apply va vb)) := by
  simp only [evalAdj, hc, hqa, hqb]

/-- MaxRank is the universal quantification of its comparison over the
group: with the group evaluating to `l` (non-empty) and the comparison
evaluating to `f x` on every member `x`, the rank adjective evaluates to
the conjunction `l.all f`, so it is true iff the comparison holds against
every member; and the instantiated proof backs the rank conclusion by the
rank assumption, the group possession and exactly one comparison proof per
group member, in group order. -/
theorem claim1_maxrank_forall {Node : Type} [DecidableEq Node] (fw : Framework Node)
    (F : Nat) (name c g : String) (n : Node) (l : List Node) (f : Node → Bool)
    (hlook : getAdjective fw name = some (.maxRank name c g))
    (hgrp : evalAdj fw F g n none = .ok (.nodes l))
    (hne : l ≠ [])
    (hcomp : ∀ x ∈ l, evalAdj fw F c n (some x) = .ok (.bool (f x))) :
    evalAdj fw (F+1) name n none = .ok (.bool (l.all f))
    ∧ (evalAdj fw (F+1) name n none = .ok (.bool true) ↔ ∀ x ∈ l, f x = true)
    ∧ (∀ gas d, explainAdjOn fw F (gas+1) (d+1) name n =
        .because .rank (boolConclText (fw.nodeStr n) name (l.all f))
          (.cons (.assumption (rankAssumptionText fw.referToNodesAs name c g true))
            (.cons (explainAdjOn fw F gas d g n)
              (plOfList (l.map (fun x => explainComparison fw F gas d c n x))))))
    ∧ (∀ gas d, plLength (plOfList (l.map (fun x => explainComparison fw F gas d c n x)))
        = l.length) := by
  have hempty : l.isEmpty = false := by
    cases l with
    | nil => exact absurd rfl hne
    | cons a as => rfl
  have hfold : compAll fw F [⟨name, fw.nodeStr n⟩] c n l = .ok (l.map f) :=
    compAll_ok fw F [⟨name, fw.nodeStr n⟩] c n f l hcomp
  have h1 : evalAdj fw (F+1) name n none = .ok (.bool (l.all f)) := by
    rw [evalAdj_maxRank_eq fw F name c g n l (l.map f) hlook hgrp hempty hfold,
      all_map_eval]
  refine ⟨h1, ?_, ?_, ?_⟩
  · rw [h1]
    simp [List.all_eq_true]
  · intro gas d
    simp only [explainAdjOn, hlook, hgrp, hempty]
    rw [hfold]
    simp [all_map_eval]
  · intro gas d
    rw [plLength_plOfList]
    simp

/-- The rank semantics theorem applied to the notebook tree: `child1` beats
each of its two siblings, so `best` evaluates to true on `child1`. -/
theorem claim1_witness :
    evalAdj mmFramework 11 "best" .child1 none = .ok (.bool true) := by
  have h := claim1_maxrank_forall mmFramework 10 "best" "better" "siblings" MMNode.child1
    [MMNode.child2, MMNode.child3] (fun _ => true) rfl rfl (by decide)
    (by intro x hx; fin_cases hx <;> rfl)
  simpa using h.1

/-- Tie handling is asymmetric: under a strict `score >` comparison, two
sibling nodes with equal scores are each not `better` than the other, so
neither qualifies as MaxRank-best against the pair while both qualify as
MinRank-worst. -/
theorem claim2_tie_asymmetry {Node : Type} [DecidableEq Node] (fw : Framework Node)
    (F : Nat) (cN qN bestN worstN gN : String) (a b : Node) (v : Int)
    (hc : getAdjective fw cN = some (.comparison cN qN .gt))
    (hbest : getAdjective fw bestN = some (.maxRank bestN cN gN))
    (hworst : getAdjective fw worstN = some (.minRank worstN cN gN))
    (hqa : evalAdj fw F qN a none = .ok (.num v))
    (hqb : evalAdj fw F qN b none = .ok (.num v))
    (hga : evalAdj fw (F+1) gN a none = .ok (.nodes [b]))
    (hgb : evalAdj fw (F+1) gN b none = .ok (.nodes [a])) :
    evalAdj fw (F+1) cN a (some b) = .ok (.bool false)
    ∧ evalAdj fw (F+1) cN b (some a) = .ok (.bool false)
    ∧ evalAdj fw (F+2) bestN a none = .ok (.bool false)
    ∧ evalAdj fw (F+2) bestN b none = .ok (.bool false)
    ∧ evalAdj fw (F+2) worstN a none = .ok (.bool true)
    ∧ evalAdj fw (F+2) worstN b none = .ok (.bool true) := by
  have hab : evalAdj fw (F+1) cN a (some b) = .ok (.bool false) := by
    have h := evalAdj_comparison_eq fw F cN qN .gt a b v v hc hqa hqb
    simpa [CompOp.apply] using h
  have hba : evalAdj fw (F+1) cN b (some a) = .ok (.bool false) := by
    have h := evalAdj_comparison_eq fw F cN qN .gt b a v v hc hqb hqa
    simpa [CompOp.apply] using h
  have hfolda : compAll fw (F+1) [⟨bestN, fw.nodeStr a⟩] cN a [b] = .ok [false] :=
    compAll_ok fw (F+1) [⟨bestN, fw.nodeStr a⟩] cN a (fun _ => false) [b]
      (by intro x hx; rw [List.mem_singleton] at hx; subst hx; exact hab)
  have hfoldb : compAll fw (F+1) [⟨bestN, fw.nodeStr b⟩] cN b [a] = .ok [false] :=
    compAll_ok fw (F+1) [⟨bestN, fw.nodeStr b⟩] cN b (fun _ => false) [a]
      (by intro x hx; rw [List.mem_singleton] at hx; subst hx; exact hba)
  have hfoldwa : compAll fw (F+1) [⟨worstN, fw.nodeStr a⟩] cN a [b] = .ok [false] :=
    compAll_ok fw (F+1) [⟨worstN, fw.nodeStr a⟩] cN a (fun _ => false) [b]
      (by intro x hx; rw [List.mem_singleton] at hx; subst hx; exact hab)
  have hfoldwb : compAll fw (F+1) [⟨worstN, fw.nodeStr b⟩] cN b [a] = .ok [false] :=
    compAll_ok fw (F+1) [⟨worstN, fw.nodeStr b⟩] cN b (fun _ => false) [a]
      (by intro x hx; rw [List.mem_singleton] at hx; subst hx; exact hba)
  refine ⟨hab, hba, ?_, ?_, ?_, ?_⟩
  · simpa using evalAdj_maxRank_eq fw (F+1) bestN cN gN a [b] [false] hbest hga rfl hfolda
  · simpa using evalAdj_maxRank_eq fw (F+1) bestN cN gN b [a] [false] hbest hgb rfl hfoldb
  · simpa using evalAdj_minRank_eq fw (F+1) worstN cN gN a [b] [false] hworst hga rfl hfoldwa
  · simpa using evalAdj_minRank_eq fw (F+1) worstN cN gN b [a] [false] hworst hgb rfl hfoldwb

/-- The tie theorem on the notebook tree: `child3`'s two leaves both score
1; neither is best among its siblings, both are worst. -/
theorem claim2_witness :
    evalAdj mmFramework 11 "better" .leaf31 (some .leaf32) = .ok (.bool false)
    ∧ evalAdj mmFramework 11 "better" .leaf32 (some .leaf31) = .ok (.bool false)
    ∧ evalAdj mmFramework 12 "best" .leaf31 none = .ok (.bool false)
    ∧ evalAdj mmFramework 12 "best" .leaf32 none = .ok (.bool false)
    ∧ evalAdj mmFramework 12 "worst" .leaf31 none = .ok (.bool true)
    ∧ evalAdj mmFramework 12 "worst" .leaf32 none = .ok (.bool true) := by
  have h := claim2_tie_asymmetry mmFramework 10 "better" "score" "best" "worst" "siblings"
    MMNode.leaf31 MMNode.leaf32 1 rfl rfl rfl rfl rfl rfl rfl
  exact h

/-- A false adjective is still explained, never a failure: a boolean
adjective whose getter yields `b` is rendered as a `because` node whose
conclusion is negated exactly when `b` is false and whose justification is
one and the same expression for either value of `b`; likewise a rank
adjective whose comparisons yield `f` is rendered with the (possibly
negated) rank conclusion over the identical justification expression. -/
theorem claim10_false_still_explained {Node : Type} [DecidableEq Node] (fw : Framework Node)
    (efuel gas d : Nat) (n : Node) :
    (∀ (name defn : String) (getter : Node → Option Bool) (tmpl : Option Explanation)
        (b : Bool),
      getAdjective fw name = some (.boolean name defn getter tmpl) →
      getter n = some b →
      explainAdjOn fw efuel (gas+1) (d+1) name n =
        .because .boolean (boolConclText (fw.nodeStr n) name b)
          (match tmpl with
           | none => .cons (.assumption (defAssumptionText name defn)) .nil
           | some t => expandExpl fw efuel gas d n t))
    ∧ (∀ (name c g : String) (l : List Node) (f : Node → Bool),
      getAdjective fw name = some (.maxRank name c g) →
      evalAdj fw efuel g n none = .ok (.nodes l) →
      l ≠ [] →
      (∀ x ∈ l, evalAdj fw efuel c n (some x) = .ok (.bool (f x))) →
      explainAdjOn fw efuel (gas+1) (d+1) name n =
        .because .rank (boolConclText (fw.nodeStr n) name (l.all f))
          (.cons (.assumption (rankAssumptionText fw.referToNodesAs name c g true))
            (.cons (explainAdjOn fw efuel gas d g n)
              (plOfList (l.map (fun x => explainComparison fw efuel gas d c n x)))))) := by
  constructor
  · intro name defn getter tmpl b hlook hget
    simp only [explainAdjOn, hlook, hget]
  · intro name c g l f hlook hgrp hne hcomp
    have hempty : l.isEmpty = false := by
      cases l with
      | nil => exact absurd rfl hne
      | cons a as => rfl
    have hfold : compAll fw efuel [⟨name, fw.nodeStr n⟩] c n l = .ok (l.map f) :=
      compAll_ok fw efuel [⟨name, fw.nodeStr n⟩] c n f l hcomp
    simp only [explainAdjOn, hlook, hgrp, hempty]
    rw [hfold]
    simp [all_map_eval]

/-- Negated conclusions on the notebook tree: `leaf` is false on `child1`
yet explained with its definitional assumption, and `best` is false on
`leaf11` (leaf12 scores higher) yet explained with the full rank
justification. -/
theorem claim10_witness :
    explainAdjOn mmFramework 10 21 3 "leaf" .child1 =
      .because .boolean "child1 is ¬(leaf)"
        (.cons (.assumption "Definition of \"leaf\" is node.is_leaf") .nil)
    ∧ explainAdjOn mmFramework 10 21 3 "best" .leaf11 =
      .because .rank "leaf11 is ¬(best)"
        (.cons (.assumption
            "By definition a node is \"best\" if it's \"better\" than all \"siblings\"")
          (.cons (explainAdjOn mmFramework 10 20 2 "siblings" .leaf11)
            (plOfList [explainComparison mmFramework 10 20 2 "better" .leaf11 .leaf12]))) := by
  constructor
  · exact (claim10_false_still_explained mmFramework 10 20 2 MMNode.child1).1
      "leaf" "node.is_leaf" (fun n => some n.isLeaf) none false rfl rfl
  · have h := (claim10_false_still_explained mmFramework 10 20 2 MMNode.leaf11).2
      "best" "better" "siblings" [MMNode.leaf12] (fun _ => false) rfl rfl (by decide)
      (by intro x hx; fin_cases hx; rfl)
    simpa using h

mutual
/-- The depth-expansion order on proofs: `Expands p q` holds when `q` is
obtained from `p` purely by expanding bare conclusions into justified ones
and recursively expanding justifications — never by changing or removing a
headline, an assumption or a failure. -/
inductive Expands : Proof → Proof → Prop where
  | assumption (t : String) : Expands (.assumption t) (.assumption t)
  | failure (ch : EvalErr) : Expands (.failure ch) (.failure ch)
  | conclusion (k : AdjKind) (t : String) : Expands (.conclusion k t) (.conclusion k t)
  | grow (k : AdjKind) (t : String) (js : ProofList) :
      Expands (.conclusion k t) (.because k t js)
  | because (k : AdjKind) (t : String) (js js' : ProofList) :
      ExpandsL js js' → Expands (.because k t js) (.because k t js')

/-- The depth-expansion order on justification lists, pointwise. -/
inductive ExpandsL : ProofList → ProofList → Prop where
  | nil : ExpandsL .nil .nil
  | cons (p q : Proof) (ps qs : ProofList) :
      Expands p q → ExpandsL ps qs → ExpandsL (.cons p ps) (.cons q qs)
end

mutual
theorem expandsRefl : ∀ p : Proof, Expands p p
  | .assumption t => .assumption t
  | .conclusion k t => .conclusion k t
  | .because k t js => .because k t js js (expandsLRefl js)
  | .failure ch => .failure ch

theorem expandsLRefl : ∀ ps : ProofList, ExpandsL ps ps
  | .nil => .nil
  | .cons p ps => .cons p p ps ps (expandsRefl p) (expandsLRefl ps)
end

/-- Pointwise expansion lifts through `plOfList` and `List.map`. -/
theorem expandsL_plOfList_map {α : Type} (f1 f2 : α → Proof) :
    ∀ l : List α, (∀ x ∈ l, Expands (f1 x) (f2 x)) →
      ExpandsL (plOfList (l.map f1)) (plOfList (l.map f2))
  | [], _ => ExpandsL.nil
  | x :: xs, h =>
    ExpandsL.cons _ _ _ _ (h x (List.mem_cons_self x xs))
      (expandsL_plOfList_map f1 f2 xs (fun y hy => h y (List.mem_cons_of_mem x hy)))

/-- Expansion is congruent for justification concatenation. -/
theorem expandsL_plAppend : ∀ (a a' b b' : ProofList), ExpandsL a a' → ExpandsL b b' →
    ExpandsL (plAppend a b) (plAppend a' b')
  | .nil, a', b, b', h1, h2 => by
    cases h1
    exact h2
  | .cons p ps, a', b, b', h1, h2 => by
    cases h1 with
    | cons _ q _ qs hp hps =>
      exact ExpandsL.cons _ _ _ _ hp (expandsL_plAppend ps qs b b' hps h2)

/-- Pointwise expansion lifts through `plJoin` and `List.map`. -/
theorem expandsL_plJoin_map {α : Type} (f1 f2 : α → ProofList) :
    ∀ l : List α, (∀ x ∈ l, ExpandsL (f1 x) (f2 x)) →
      ExpandsL (plJoin (l.map f1)) (plJoin (l.map f2))
  | [], _ => ExpandsL.nil
  | x :: xs, h =>
    expandsL_plAppend _ _ _ _ (h x (List.mem_cons_self x xs))
      (expandsL_plJoin_map f1 f2 xs (fun y hy => h y (List.mem_cons_of_mem x hy)))

/-- Monotonicity of the expansion pipeline in the depth budget, uniformly
in the fuel: a lower budget always produces an `Expands`-prefix of a higher
budget's result, for adjective explanation, template instantiation and
comparison explanation alike. -/
theorem mono_gas {Node : Type} [DecidableEq Node] (fw : Framework Node) (efuel : Nat) :
    ∀ gas : Nat,
      (∀ d1 d2 (name : String) (n : Node), d1 ≤ d2 →
        Expands (explainAdjOn fw efuel gas d1 name n) (explainAdjOn fw efuel gas d2 name n))
      ∧ (∀ d1 d2 (n : Node) (e : Explanation), d1 ≤ d2 →
        ExpandsL (expandExpl fw efuel gas d1 n e) (expandExpl fw efuel gas d2 n e))
      ∧ (∀ d1 d2 (c : String) (a b : Node), d1 ≤ d2 →
        Expands (explainComparison fw efuel gas d1 c a b)
          (explainComparison fw efuel gas d2 c a b)) := by
  intro gas
  induction gas with
  | zero =>
    refine ⟨fun _ _ _ _ _ => Expands.failure _, fun _ _ _ _ _ => ExpandsL.nil,
      fun _ _ _ _ _ _ => Expands.failure _⟩
  | succ g ih =>
    obtain ⟨ihA, ihE, ihC⟩ := ih
    refine ⟨?_, ?_, ?_⟩
    · intro d1 d2 name n h
      cases hadj : getAdjective fw name with
      | none =>
        simp only [explainAdjOn, hadj]
        exact Expands.failure _
      | some adj =>
        cases adj with
        | boolean nm defn getter tmpl =>
          cases hget : getter n with
          | none =>
            simp only [explainAdjOn, hadj, hget]
            exact Expands.failure _
          | some b =>
            simp only [explainAdjOn, hadj, hget]
            cases d1 with
            | zero =>
              cases d2 with
              | zero => exact Expands.conclusion _ _
              | succ d2' => exact Expands.grow _ _ _
            | succ d1' =>
              cases d2 with
              | zero => exact absurd h (by omega)
              | succ d2' =>
                cases tmpl with
                | none => exact Expands.because _ _ _ _ (expandsLRefl _)
                | some t => exact Expands.because _ _ _ _ (ihE d1' d2' n t (by omega))
        | pointer nm defn getter tmpl =>
          cases hget : getter n with
          | none =>
            simp only [explainAdjOn, hadj, hget]
            exact Expands.failure _
          | some m =>
            simp only [explainAdjOn, hadj, hget]
            cases d1 with
            | zero =>
              cases d2 with
              | zero => exact Expands.conclusion _ _
              | succ d2' => exact Expands.grow _ _ _
            | succ d1' =>
              cases d2 with
              | zero => exact absurd h (by omega)
              | succ d2' =>
                cases tmpl with
                | none => exact Expands.because _ _ _ _ (expandsLRefl _)
                | some t => exact Expands.because _ _ _ _ (ihE d1' d2' n t (by omega))
        | quantitative nm defn getter tmpl =>
          cases hget : getter n with
          | none =>
            simp only [explainAdjOn, hadj, hget]
            exact Expands.failure _
          | some v =>
            simp only [explainAdjOn, hadj, hget]
            cases d1 with
            | zero =>
              cases d2 with
              | zero => exact Expands.conclusion _ _
              | succ d2' => exact Expands.grow _ _ _
            | succ d1' =>
              cases d2 with
              | zero => exact absurd h (by omega)
              | succ d2' =>
                cases tmpl with
                | none => exact Expands.because _ _ _ _ (expandsLRefl _)
                | some t => exact Expands.because _ _ _ _ (ihE d1' d2' n t (by omega))
        | nodesGroup nm defn getter excl tmpl =>
          cases hget : getter n with
          | none =>
            simp only [explainAdjOn, hadj, hget]
            exact Expands.failure _
          | some l0 =>
            simp only [explainAdjOn, hadj, hget]
            cases d1 with
            | zero =>
              cases d2 with
              | zero => exact Expands.conclusion _ _
              | succ d2' => exact Expands.grow _ _ _
            | succ d1' =>
              cases d2 with
              | zero => exact absurd h (by omega)
              | succ d2' =>
                cases tmpl with
                | none => exact Expands.because _ _ _ _ (expandsLRefl _)
                | some t => exact Expands.because _ _ _ _ (ihE d1' d2' n t (by omega))
        | comparison nm base op =>
          simp only [explainAdjOn, hadj]
          exact Expands.failure _
        | maxRank nm c grp =>
          cases hg : evalAdj fw efuel grp n none with
          | error e =>
            simp only [explainAdjOn, hadj, hg]
            exact Expands.failure _
          | ok v =>
            cases v with
            | bool b =>
              simp only [explainAdjOn, hadj, hg]
              exact Expands.failure _
            | num q =>
              simp only [explainAdjOn, hadj, hg]
              exact Expands.failure _
            | node m =>
              simp only [explainAdjOn, hadj, hg]
              exact Expands.failure _
            | nodes l =>
              cases hemp : l.isEmpty with
              | true =>
                simp only [explainAdjOn, hadj, hg, hemp]
                exact Expands.failure _
              | false =>
                cases hcmp : compAll fw efuel [⟨nm, fw.nodeStr n⟩] c n l with
                | error e =>
                  simp only [explainAdjOn, hadj, hg, hemp, hcmp]
                  exact Expands.failure _
                | ok bs =>
                  simp only [explainAdjOn, hadj, hg, hemp, hcmp]
                  cases d1 with
                  | zero =>
                    cases d2 with
                    | zero => exact Expands.conclusion _ _
                    | succ d2' => exact Expands.grow _ _ _
                  | succ d1' =>
                    cases d2 with
                    | zero => exact absurd h (by omega)
                    | succ d2' =>
                      exact Expands.because _ _ _ _
                        (ExpandsL.cons _ _ _ _ (expandsRefl _)
                          (ExpandsL.cons _ _ _ _ (ihA d1' d2' grp n (by omega))
                            (expandsL_plOfList_map _ _ l
                              (fun x _ => ihC d1' d2' c n x (by omega)))))
        | minRank nm c grp =>
          cases hg : evalAdj fw efuel grp n none with
          | error e =>
            simp only [explainAdjOn, hadj, hg]
            exact Expands.failure _
          | ok v =>
            cases v with
            | bool b =>
              simp only [explainAdjOn, hadj, hg]
              exact Expands.failure _
            | num q =>
              simp only [explainAdjOn, hadj, hg]
              exact Expands.failure _
            | node m =>
              simp only [explainAdjOn, hadj, hg]
              exact Expands.failure _
            | nodes l =>
              cases hemp : l.isEmpty with
              | true =>
                simp only [explainAdjOn, hadj, hg, hemp]
                exact Expands.failure _
              | false =>
                cases hcmp : compAll fw efuel [⟨nm, fw.nodeStr n⟩] c n l with
                | error e =>
                  simp only [explainAdjOn, hadj, hg, hemp, hcmp]
                  exact Expands.failure _
                | ok bs =>
                  simp only [explainAdjOn, hadj, hg, hemp, hcmp]
                  cases d1 with
                  | zero =>
                    cases d2 with
                    | zero => exact Expands.conclusion _ _
                    | succ d2' => exact Expands.grow _ _ _
                  | succ d1' =>
                    cases d2 with
                    | zero => exact absurd h (by omega)
                    | succ d2' =>
                      exact Expands.because _ _ _ _
                        (ExpandsL.cons _ _ _ _ (expandsRefl _)
                          (ExpandsL.cons _ _ _ _ (ihA d1' d2' grp n (by omega))
                            (expandsL_plOfList_map _ _ l
                              (fun x _ => ihC d1' d2' c n x (by omega)))))
    · intro d1 d2 n e h
      cases e with
      | assumption t =>
        simp only [expandExpl]
        exact expandsLRefl _
      | possession popt adjName =>
        cases popt with
        | none =>
          simp only [expandExpl]
          exact ExpandsL.cons _ _ _ _ (ihA d1 d2 adjName n h) ExpandsL.nil
        | some p =>
          cases heval : evalAdj fw efuel p n none with
          | error er =>
            simp only [expandExpl, heval]
            exact expandsLRefl _
          | ok v =>
            cases v with
            | bool b =>
              simp only [expandExpl, heval]
              exact expandsLRefl _
            | num q =>
              simp only [expandExpl, heval]
              exact expandsLRefl _
            | nodes l =>
              simp only [expandExpl, heval]
              exact expandsLRefl _
            | node t =>
              simp only [expandExpl, heval]
              exact ExpandsL.cons _ _ _ _ (ihA d1 d2 adjName t h) ExpandsL.nil
      | comparison c ptr =>
        cases heval : evalAdj fw efuel ptr n none with
        | error er =>
          simp only [expandExpl, heval]
          exact expandsLRefl _
        | ok v =>
          cases v with
          | bool b =>
            simp only [expandExpl, heval]
            exact expandsLRefl _
          | num q =>
            simp only [expandExpl, heval]
            exact expandsLRefl _
          | nodes l =>
            simp only [expandExpl, heval]
            exact expandsLRefl _
          | node t =>
            simp only [expandExpl, heval]
            exact ExpandsL.cons _ _ _ _ (ihC d1 d2 c n t h) ExpandsL.nil
      | groupComparison c grp pos =>
        cases heval : evalAdj fw efuel grp n none with
        | error er =>
          simp only [expandExpl, heval]
          exact expandsLRefl _
        | ok v =>
          cases v with
          | bool b =>
            simp only [expandExpl, heval]
            exact expandsLRefl _
          | num q =>
            simp only [expandExpl, heval]
            exact expandsLRefl _
          | node t =>
            simp only [expandExpl, heval]
            exact expandsLRefl _
          | nodes l =>
            simp only [expandExpl, heval]
            exact ExpandsL.cons _ _ _ _ (ihA d1 d2 grp n h)
              (expandsL_plOfList_map _ _ l (fun x _ => ihC d1 d2 c n x h))
      | composite subs =>
        simp only [expandExpl]
        exact expandsL_plJoin_map _ _ subs (fun x _ => ihE d1 d2 n x h)
      | conditional cond ifT ifF =>
        obtain ⟨copt, cadj⟩ := cond
        cases copt with
        | none =>
          cases hcnd : evalAdj fw efuel cadj n none with
          | error er =>
            simp only [expandExpl, hcnd]
            exact expandsLRefl _
          | ok v =>
            cases v with
            | num q =>
              simp only [expandExpl, hcnd]
              exact expandsLRefl _
            | node t =>
              simp only [expandExpl, hcnd]
              exact expandsLRefl _
            | nodes l =>
              simp only [expandExpl, hcnd]
              exact expandsLRefl _
            | bool b =>
              simp only [expandExpl, hcnd]
              cases b with
              | true =>
                exact ExpandsL.cons _ _ _ _ (ihA d1 d2 cadj n h) (ihE d1 d2 n ifT h)
              | false =>
                exact ExpandsL.cons _ _ _ _ (ihA d1 d2 cadj n h) (ihE d1 d2 n ifF h)
        | some p =>
          cases heval : evalAdj fw efuel p n none with
          | error er =>
            simp only [expandExpl, heval]
            exact expandsLRefl _
          | ok v =>
            cases v with
            | bool b =>
              simp only [expandExpl, heval]
              exact expandsLRefl _
            | num q =>
              simp only [expandExpl, heval]
              exact expandsLRefl _
            | nodes l =>
              simp only [expandExpl, heval]
              exact expandsLRefl _
            | node t =>
              cases hcnd : evalAdj fw efuel cadj t none with
              | error er =>
                simp only [expandExpl, heval, hcnd]
                exact expandsLRefl _
              | ok v' =>
                cases v' with
                | num q =>
                  simp only [expandExpl, heval, hcnd]
                  exact expandsLRefl _
                | node t' =>
                  simp only [expandExpl, heval, hcnd]
                  exact expandsLRefl _
                | nodes l =>
                  simp only [expandExpl, heval, hcnd]
                  exact expandsLRefl _
                | bool b =>
                  simp only [expandExpl, heval, hcnd]
                  cases b with
                  | true =>
                    exact ExpandsL.cons _ _ _ _ (ihA d1 d2 cadj t h) (ihE d1 d2 n ifT h)
                  | false =>
                    exact ExpandsL.cons _ _ _ _ (ihA d1 d2 cadj t h) (ihE d1 d2 n ifF h)
    · intro d1 d2 c a b h
      cases heval : evalAdj fw efuel c a (some b) with
      | error er =>
        simp only [explainComparison, heval]
        exact Expands.failure _
      | ok v =>
        cases v with
        | num q =>
          simp only [explainComparison, heval]
          exact Expands.failure _
        | node t =>
          simp only [explainComparison, heval]
          exact Expands.failure _
        | nodes l =>
          simp only [explainComparison, heval]
          exact Expands.failure _
        | bool vb =>
          cases hl : getAdjective fw c with
          | none =>
            simp only [explainComparison, heval, hl]
            cases d1 with
            | zero =>
              cases d2 with
              | zero => exact Expands.conclusion _ _
              | succ d2' => exact Expands.conclusion _ _
            | succ d1' =>
              cases d2 with
              | zero => exact absurd h (by omega)
              | succ d2' => exact Expands.conclusion _ _
          | some adj =>
            cases adj with
            | comparison nm base op =>
              simp only [explainComparison, heval, hl]
              cases d1 with
              | zero =>
                cases d2 with
                | zero => exact Expands.conclusion _ _
                | succ d2' => exact Expands.grow _ _ _
              | succ d1' =>
                cases d2 with
                | zero => exact absurd h (by omega)
                | succ d2' =>
                  exact Expands.because _ _ _ _
                    (ExpandsL.cons _ _ _ _ (expandsRefl _)
                      (ExpandsL.cons _ _ _ _ (ihA d1' d2' base a (by omega))
                        (ExpandsL.cons _ _ _ _ (ihA d1' d2' base b (by omega)) ExpandsL.nil)))
            | boolean nm defn getter tmpl =>
              simp only [explainComparison, heval, hl]
              cases d1 <;> cases d2 <;> exact Expands.conclusion _ _
            | pointer nm defn getter tmpl =>
              simp only [explainComparison, heval, hl]
              cases d1 <;> cases d2 <;> exact Expands.conclusion _ _
            | quantitative nm defn getter tmpl =>
              simp only [explainComparison, heval, hl]
              cases d1 <;> cases d2 <;> exact Expands.conclusion _ _
            | nodesGroup nm defn getter excl tmpl =>
              simp only [explainComparison, heval, hl]
              cases d1 <;> cases d2 <;> exact Expands.conclusion _ _
            | maxRank nm cc gg =>
              simp only [explainComparison, heval, hl]
              cases d1 <;> cases d2 <;> exact Expands.conclusion _ _
            | minRank nm cc gg =>
              simp only [explainComparison, heval, hl]
              cases d1 <;> cases d2 <;> exact Expands.conclusion _ _

/-- Depth monotonicity: for a fixed framework, fuel, adjective and node, a
strictly larger explanation depth only expands the proof produced at the
smaller depth — every headline, assumption and failure present at the lower
depth is still present, and bare conclusions at the truncation frontier
gain justification. -/
theorem claim5_depth_monotone {Node : Type} [DecidableEq Node] (fw : Framework Node)
    (efuel gas : Nat) (name : String) (n : Node) (d1 d2 : Nat) (h : d1 < d2) :
    Expands (explainAdjOn fw efuel gas d1 name n) (explainAdjOn fw efuel gas d2 name n) :=
  (mono_gas fw efuel gas).1 d1 d2 name n (Nat.le_of_lt h)

/-- Depth monotonicity on the notebook tree: the depth-1 proof of `worst`
on `child1` is a truncation of the depth-3 proof. -/
theorem claim5_witness :
    Expands (explainAdjOn mmFramework 10 20 1 "worst" .child1)
      (explainAdjOn mmFramework 10 20 3 "worst" .child1) :=
  claim5_depth_monotone mmFramework 10 20 "worst" .child1 1 3 (by decide)

end XTS
